import Mathlib

/-!
Shallow embedding of `src/app/quests/helpers.py` (quest reward cascade and
leaderboard generation) and proofs about it.

Conventions of the embedding:
* Python numeric values (quest values, point awards) are modelled as `ℚ`
  (exact arithmetic; the Python code uses ordinary numeric division and sums).
* Django model rows are modelled as entries of plain lists: a
  `QuestPointAward` row is a pair `(profile handle or pk, value)`, a
  `BulkTransferCoupon` row is a `Coupon` structure.
* External collaborators (the `referrer` relation between profiles, the
  `settings.DEBUG` flag, whether `send_notification_to_user` raises, the
  redemption records feeding the kudos images of a leaderboard entry) are
  inputs of the embedded functions.
-/

/-! ## Definitions: the embedded program -/

/-- Display value of a leaderboard entry: Python `int(x)` (an `int`) or
`round(x, 1)` (a `float`); the two Python types are kept apart. -/
inductive DisplayVal where
  | int : ℤ → DisplayVal
  | dec : ℚ → DisplayVal
deriving DecidableEq, Repr

instance : Inhabited DisplayVal := ⟨.int 0⟩

/-- Python `x % 1` for a rational: `x - floor x`.  (`Rat.floor` is the
computable floor; `ratFloor_eq` below identifies it with `⌊⌋`.) -/
def pyMod1 (q : ℚ) : ℚ := q - Rat.floor q

/-- Python `int(x)`: truncation toward zero. -/
def pyTrunc (q : ℚ) : ℤ := if 0 ≤ q then Rat.floor q else -Rat.floor (-q)

/-- Python `round(x)` to an integer: round half to even (banker's rounding). -/
def pyRoundHalfEven (q : ℚ) : ℤ :=
  if q - Rat.floor q < 1/2 then Rat.floor q
  else if 1/2 < q - Rat.floor q then Rat.floor q + 1
  else if 2 ∣ Rat.floor q then Rat.floor q else Rat.floor q + 1

/-- Python `round(x, 1)`: round to one decimal place, half to even. -/
def pyRound1 (q : ℚ) : ℚ := (pyRoundHalfEven (q * 10) : ℚ) / 10

/-- helpers.py line 206:
`display_pts = int(ele[1]) if not ele[1] % 1 else round(ele[1],1)`. -/
def display_pts (v : ℚ) : DisplayVal :=
  if pyMod1 v = 0 then .int (pyTrunc v) else .dec (pyRound1 v)

/-- helpers.py lines 185-189: the aggregation step of one `QuestPointAward`
row into the `leaderboard` dict (`dict` keeps first-insertion order, so the
dict is an association list; a missing key starts at 0 and the value is
added). -/
def addAward (acc : List (String × ℚ)) (qpa : String × ℚ) : List (String × ℚ) :=
  if qpa.1 ∈ acc.map Prod.fst then
    acc.map (fun p => if p.1 = qpa.1 then (p.1, p.2 + qpa.2) else p)
  else
    acc ++ [(qpa.1, qpa.2)]

/-- helpers.py lines 184-189: sum `value` over all `QuestPointAward` rows
grouped by `profile.handle`, in first-seen key order. -/
def aggregate (awards : List (String × ℚ)) : List (String × ℚ) :=
  awards.foldl addAward []

/-- The sort key of helpers.py line 190: `sorted(..., key=lambda x: x[1],
reverse=True)` orders by value descending. -/
def byValueDesc (a b : String × ℚ) : Prop := b.2 ≤ a.2

instance : DecidableRel byValueDesc := fun a b => inferInstanceAs (Decidable (b.2 ≤ a.2))

instance : IsTotal (String × ℚ) byValueDesc := ⟨fun a b => le_total b.2 a.2⟩

instance : IsTrans (String × ℚ) byValueDesc := ⟨fun _ _ _ h h' => le_trans h' h⟩

/-- helpers.py line 190: Python `sorted` is a stable sort; with key
`x[1]` and `reverse=True`, equal values keep their original relative order.
`List.insertionSort byValueDesc` is a stable sort by the same key, hence
computes the same list. -/
def sortDesc (l : List (String × ℚ)) : List (String × ℚ) :=
  List.insertionSort byValueDesc l

/-- helpers.py line 181. -/
def kudos_to_show_per_leaderboard_entry : ℕ := 5

/-- helpers.py lines 194-198, 207: the fixed rank → bonus-kudos-token pk
table (`reward_kudos.get(counter)`). -/
def reward_kudos_get (counter : ℕ) : Option ℕ :=
  if counter = 1 then some 621
  else if counter = 2 then some 618
  else if counter = 3 then some 622 else none

/-- One row of `return_leaderboard` (helpers.py line 209):
`[ele[0], display_pts, kudii, reward_kudos_url, counter]`.  `reward` keeps
the pk of the bonus token (`Token.objects.get(pk)` is an external lookup
determined by the pk). -/
structure LBEntry where
  handle : String
  display : DisplayVal
  kudii : List (String × String)
  reward : Option ℕ
  counter : ℕ
deriving DecidableEq, Repr, Inhabited

/-- Kudos-image oracle: for a handle, the result of the Python expression
`list(set([(img_url, humanized_name) for redemption in btr]))` on helpers.py
line 205 — the redemption records and the arbitrary `set` iteration order
are external inputs. -/
abbrev KudOracle : Type := String → List (String × String)

/-- helpers.py lines 200-210: the assembly loop.  `counter` starts at 0 and
is incremented at the top of each iteration; the entry keeps the handle, the
formatted points, the first `kudos_to_show_per_leaderboard_entry` kudos
pairs, the optional bonus token and the counter. -/
def assembleFrom (kud : KudOracle) (counter : ℕ) : List (String × ℚ) → List LBEntry
  | [] => []
  | ele :: rest =>
    { handle := ele.1
      display := display_pts ele.2
      kudii := (kud ele.1).take kudos_to_show_per_leaderboard_entry
      reward := reward_kudos_get (counter + 1)
      counter := counter + 1 } :: assembleFrom kud (counter + 1) rest

/-- helpers.py lines 219-222 (inside the `else` branch): the in-place swap of
elements 0 and 1.  It is only reached when the list has at least 3 elements. -/
def swapFirstTwo : List LBEntry → List LBEntry
  | a :: b :: rest => b :: a :: rest
  | l => l

/-- helpers.py lines 175-226, `generate_leaderboard(max_entries=25)`.
In the Python, `leaderboard_hero = return_leaderboard` makes the two names
alias one list object, so the element swap on lines 219-222 mutates
`return_leaderboard` as well; `leaderboard_hero = leaderboard_hero[:3]` and
`return_leaderboard = return_leaderboard[:max_entries]` then slice the
swapped list.  (The rebinding `leaderboard = leaderboard[3:]` on line 217
has no effect on the returned values and is dropped.)  Returns
`(return_leaderboard, leaderboard_hero)`. -/
def generate_leaderboard (kud : KudOracle) (awards : List (String × ℚ))
    (max_entries : ℕ) : List LBEntry × List LBEntry :=
  let leaderboard := sortDesc (aggregate awards)
  let return_leaderboard := assembleFrom kud 0 leaderboard
  if leaderboard.length < 3 then
    (return_leaderboard.take max_entries, [])
  else
    let swapped := swapFirstTwo return_leaderboard
    (swapped.take max_entries, swapped.take 3)

/-- Number of distinct contributing profiles among the point-award rows. -/
def distinctContributors (awards : List (String × ℚ)) : ℕ :=
  ((awards.map Prod.fst).dedup).length

/-- The true 1-based rank of a handle: its position in the value-descending
sorted aggregation (the rank the assembly loop's `counter` assigns). -/
def trueRank (awards : List (String × ℚ)) (h : String) : ℕ :=
  ((sortDesc (aggregate awards)).map Prod.fst).indexOf h + 1

/-- helpers.py line 19. -/
def max_ref_depth : ℕ := 4

/-- The quest fields the cascade reads: `value` (base point reward) and
`kudos_reward` (the reward token, kept as its pk). -/
structure Quest where
  value : ℚ
  kudos_reward : ℕ
deriving Repr

/-- A `BulkTransferCoupon` row as created by the cascade (helpers.py lines
64-76) and by `process_win` (lines 150-162): token, tag, use counters and
the recipient profile pk from `metadata`.  The random `secret` and the
congratulation message are external/nondeterministic strings that no claim
depends on and are omitted. -/
structure Coupon where
  token : ℕ
  tag : String
  num_uses_total : ℕ
  current_uses : ℕ
  recipient : ℕ
deriving DecidableEq, Repr

/-- The database rows the cascade touches, for the one quest attempt under
consideration: `QuestPointAward` rows as (profile pk, value) pairs and
`BulkTransferCoupon` rows. -/
structure DB where
  awards : List (ℕ × ℚ)
  coupons : List Coupon
deriving DecidableEq, Repr

/-- External collaborators of the cascade: the profile `referrer` relation,
`settings.DEBUG`, and whether `send_notification_to_user` raises for a given
(profile, layer) call. -/
structure CascadeEnv where
  referrer : ℕ → Option ℕ
  debug : Bool
  notifyFails : ℕ → ℕ → Bool

/-- helpers.py lines 43-84, `record_award_helper(qa, profile, layer=1)`.
`q` is `qa.quest`; the attempt itself is fixed throughout one cascade.
Returns the updated database and `true` when the call returned normally,
`false` when an exception from `send_notification_to_user` propagated (the
Python has no try/except around it, so the exception aborts the recursion;
rows written before it remain).  Callers invoke it with `layer = 1`. -/
def record_award_helper (env : CascadeEnv) (q : Quest) (db : DB) (profile : ℕ)
    (layer : ℕ) : DB × Bool :=
  if hl : layer > max_ref_depth then (db, true)
  else
    let value := q.value / 2 ^ (layer - 1)
    let db1 : DB := { db with awards := db.awards ++ [(profile, value)] }
    if layer > 1 ∨ env.debug = true then
      let db2 : DB := { db1 with coupons := db1.coupons ++
        [{ token := q.kudos_reward, tag := "quest", num_uses_total := 1,
           current_uses := 0, recipient := profile }] }
      if env.notifyFails profile layer = true then (db2, false)
      else
        match env.referrer profile with
        | some r => record_award_helper env q db2 r (layer + 1)
        | none => (db2, true)
    else
      match env.referrer profile with
      | some r => record_award_helper env q db1 r (layer + 1)
      | none => (db1, true)
termination_by max_ref_depth + 1 - layer
decreasing_by
  all_goals simp only [max_ref_depth] at hl ⊢
  all_goals omega

/-- A terminating (acyclic) referrer chain: each listed profile refers to
the next and the last has no referrer. -/
def isRefChain (ref : ℕ → Option ℕ) : List ℕ → Prop
  | [] => True
  | [p] => ref p = none
  | p :: r :: rest => ref p = some r ∧ isRefChain ref (r :: rest)

/-- The point-award rows one cascade invocation creates along a chain,
starting at `layer`: one row per chain member while the layer cap allows. -/
def chainAwards (v : ℚ) : List ℕ → ℕ → List (ℕ × ℚ)
  | [], _ => []
  | p :: ps, layer =>
    if layer > max_ref_depth then []
    else (p, v / 2 ^ (layer - 1)) :: chainAwards v ps (layer + 1)

/-- Sum of the values of a list of point-award rows. -/
def sumVals (l : List (ℕ × ℚ)) : ℚ := (l.map Prod.snd).sum

theorem chainAwards_high (v : ℚ) :
    ∀ (l : List ℕ) (layer : ℕ), max_ref_depth < layer → chainAwards v l layer = []
  | [], _, _ => rfl
  | _ :: _, _, h => by rw [chainAwards, if_pos h]

/-- A two-profile referrer chain used in concrete instantiations:
profile 0 refers profile 1. -/
def lin2Env : CascadeEnv :=
  { referrer := fun p => if p = 0 then some 1 else none
    debug := false
    notifyFails := fun _ _ => false }

/-- A three-profile chain 10 → 11 → 12 in which notification delivery
raises for profile 11. -/
def failEnv : CascadeEnv :=
  { referrer := fun p => if p = 10 then some 11 else if p = 11 then some 12 else none
    debug := false
    notifyFails := fun p _ => p == 11 }

/-- A referral cycle of length 2: profile 0 refers profile 1 and
profile 1 refers profile 0. -/
def cyc2Env : CascadeEnv :=
  { referrer := fun p => if p = 0 then some 1 else if p = 1 then some 0 else none
    debug := false
    notifyFails := fun _ _ => false }

/-- helpers.py lines 142-148: the lookup `process_win` performs before
creating the winner's coupon (`BulkTransferCoupon.objects.filter(token=...,
tag='quest', metadata__recipient=...)`). -/
def couponExistsFor (db : DB) (tok : ℕ) (rcpt : ℕ) : Bool :=
  db.coupons.any fun c => c.token == tok && c.tag == "quest" && c.recipient == rcpt

/-- Result of `process_win`: the database, whether `qa.success = True` was
saved, and whether the function returned its prize URL (it does not when
the cascade raises, since the exception propagates before `return`). -/
structure WinOutcome where
  db : DB
  attempt_success : Bool
  prize_url_returned : Bool
deriving Repr

/-- helpers.py lines 134-168, `process_win(request, qa)`.
`was_already_beaten` is the result of the external `quest.is_beaten(
request.user)` call made before anything else; `first_time_beaten` is its
negation.  The function looks up (or, if absent, creates) the winner's
coupon, builds the prize URL from it, saves `qa.success = True`, and only
when `first_time_beaten` runs `record_award_helper(qa, qa.profile)`.
The best-effort activity-feed write (line 141) touches no modelled state
and is omitted. -/
def process_win (env : CascadeEnv) (q : Quest) (db : DB) (winner : ℕ)
    (was_already_beaten : Bool) : WinOutcome :=
  let first_time_beaten := !was_already_beaten
  let db1 : DB := if couponExistsFor db q.kudos_reward winner then db
    else { db with coupons := db.coupons ++ [⟨q.kudos_reward, "quest", 1, 0, winner⟩] }
  if first_time_beaten then
    let res := record_award_helper env q db1 winner 1
    { db := res.1, attempt_success := true, prize_url_returned := res.2 }
  else
    { db := db1, attempt_success := true, prize_url_returned := true }

/-! ## Theorems -/

/-- The computable `Rat.floor` agrees with the floor of the `FloorRing ℚ`
instance. -/
theorem ratFloor_eq (q : ℚ) : (Rat.floor q : ℤ) = ⌊q⌋ :=
  (Rat.floor_def' q).trans Rat.floor_def.symm

/-- The handles (dict keys) after one aggregation step. -/
theorem addAward_keys (acc : List (String × ℚ)) (a : String × ℚ) :
    (addAward acc a).map Prod.fst =
      if a.1 ∈ acc.map Prod.fst then acc.map Prod.fst
      else acc.map Prod.fst ++ [a.1] := by
  unfold addAward
  split
  · next h =>
    rw [List.map_map]
    refine List.map_congr_left ?_
    intro p _
    by_cases hp : p.1 = a.1 <;> simp [hp]
  · next h => simp

/-- Aggregation never produces duplicate handles. -/
theorem foldl_addAward_keys_nodup :
    ∀ (l acc : List (String × ℚ)), (acc.map Prod.fst).Nodup →
      ((l.foldl addAward acc).map Prod.fst).Nodup
  | [], _, h => h
  | a :: l, acc, h => by
    rw [List.foldl_cons]
    apply foldl_addAward_keys_nodup l
    rw [addAward_keys]
    split
    · exact h
    · next hna => simp [List.nodup_append, h, hna]

/-- The handles after aggregation are the handles of the input awards. -/
theorem foldl_addAward_keys_mem :
    ∀ (l acc : List (String × ℚ)) (x : String),
      x ∈ (l.foldl addAward acc).map Prod.fst ↔
        x ∈ acc.map Prod.fst ∨ x ∈ l.map Prod.fst
  | [], _, x => by simp
  | a :: l, acc, x => by
    rw [List.foldl_cons, foldl_addAward_keys_mem l]
    rw [addAward_keys]
    split
    · next hin =>
      simp only [List.map_cons, List.mem_cons]
      constructor
      · rintro (h | h)
        · exact Or.inl h
        · exact Or.inr (Or.inr h)
      · rintro (h | h | h)
        · exact Or.inl h
        · exact Or.inl (h ▸ hin)
        · exact Or.inr h
    · next hnin =>
      simp only [List.mem_append, List.map_cons, List.mem_cons, List.mem_singleton,
        List.not_mem_nil, or_false]
      tauto

theorem aggregate_keys_nodup (awards : List (String × ℚ)) :
    ((aggregate awards).map Prod.fst).Nodup :=
  foldl_addAward_keys_nodup awards [] (by simp)

/-- The aggregated list has one row per distinct contributing handle. -/
theorem aggregate_length_eq (awards : List (String × ℚ)) :
    (aggregate awards).length = distinctContributors awards := by
  have h2 : ((aggregate awards).map Prod.fst).toFinset = (awards.map Prod.fst).toFinset := by
    ext x
    simp only [List.mem_toFinset]
    simpa [aggregate] using foldl_addAward_keys_mem awards [] x
  calc (aggregate awards).length
      = ((aggregate awards).map Prod.fst).length := by simp
    _ = ((aggregate awards).map Prod.fst).toFinset.card :=
        (List.toFinset_card_of_nodup (aggregate_keys_nodup awards)).symm
    _ = (awards.map Prod.fst).toFinset.card := by rw [h2]
    _ = distinctContributors awards := List.card_toFinset _

theorem sortDesc_length (l : List (String × ℚ)) : (sortDesc l).length = l.length :=
  List.length_insertionSort _ l

theorem sortDesc_perm (l : List (String × ℚ)) : (sortDesc l).Perm l :=
  List.perm_insertionSort _ l

theorem sortDesc_sorted (l : List (String × ℚ)) : (sortDesc l).Sorted byValueDesc :=
  List.sorted_insertionSort _ l

theorem assembleFrom_length (kud : KudOracle) :
    ∀ (c : ℕ) (l : List (String × ℚ)), (assembleFrom kud c l).length = l.length
  | _, [] => rfl
  | c, _ :: rest => by
    rw [assembleFrom]
    simp [assembleFrom_length kud (c + 1) rest]

theorem swapFirstTwo_length : ∀ l : List LBEntry, (swapFirstTwo l).length = l.length
  | [] => rfl
  | [_] => rfl
  | _ :: _ :: _ => rfl

theorem mem_swapFirstTwo {e : LBEntry} :
    ∀ {l : List LBEntry}, e ∈ swapFirstTwo l ↔ e ∈ l
  | [] => Iff.rfl
  | [_] => Iff.rfl
  | _ :: _ :: _ => by
    simp only [swapFirstTwo, List.mem_cons]
    tauto

/-- Every assembled entry records the handle of some ranked row and the
1-based position of that row as its counter. -/
theorem mem_assembleFrom (kud : KudOracle) :
    ∀ (l : List (String × ℚ)) (c : ℕ) (e : LBEntry), e ∈ assembleFrom kud c l →
      ∃ i, ∃ h : i < l.length, e.handle = (l.get ⟨i, h⟩).1 ∧ e.counter = c + i + 1
  | [], _, _, h => by simp [assembleFrom] at h
  | ele :: rest, c, e, h => by
    rw [assembleFrom] at h
    rcases List.mem_cons.mp h with h1 | h2
    · exact ⟨0, by simp, by simp [h1], by simp [h1]⟩
    · obtain ⟨i, hi, he, hc⟩ := mem_assembleFrom kud rest (c + 1) e h2
      refine ⟨i + 1, by simpa using hi, ?_, by omega⟩
      simpa using he

theorem exists_three_head {α : Type} :
    ∀ l : List α, 3 ≤ l.length → ∃ a b c t, l = a :: b :: c :: t
  | [], h => by simp at h
  | [_], h => by simp at h
  | [_, _], h => by simp at h
  | a :: b :: c :: t, _ => ⟨a, b, c, t, rfl⟩

/-- The integer produced by round-half-to-even is within 1/2 of its input. -/
theorem pyRoundHalfEven_abs (x : ℚ) : |(pyRoundHalfEven x : ℚ) - x| ≤ 1/2 := by
  unfold pyRoundHalfEven
  have h1 : (⌊x⌋ : ℚ) ≤ x := Int.floor_le x
  have h2 : x < ⌊x⌋ + 1 := Int.lt_floor_add_one x
  simp only [ratFloor_eq]
  split
  · next h => rw [abs_le]; constructor <;> push_cast <;> linarith
  · next h =>
    split
    · next h' => rw [abs_le]; constructor <;> push_cast <;> linarith
    · next h' =>
      split
      · rw [abs_le]; constructor <;> push_cast <;> linarith
      · rw [abs_le]; constructor <;> push_cast <;> linarith

/-- C1 (code bug evaluation): on the spec's own example — profiles A=30,
B=20, C=10, D=5 points, `max_entries` 25 — the full list returned by
`generate_leaderboard` is ordered [B, A, C, D], not [A, B, C, D] as the
claim states: the hero swap mutates the aliased `return_leaderboard` list,
so the full list's positions 1 and 2 are swapped too. -/
theorem C1_full_list_swapped_on_example :
    (generate_leaderboard (fun _ => []) [("A", 30), ("B", 20), ("C", 10), ("D", 5)] 25).1.map
        LBEntry.handle = ["B", "A", "C", "D"] ∧
    (generate_leaderboard (fun _ => []) [("A", 30), ("B", 20), ("C", 10), ("D", 5)] 25).1.map
        LBEntry.handle ≠ ["A", "B", "C", "D"] := by
  constructor <;> decide

/-- C5: with fewer than 3 distinct contributing profiles the hero list is
empty; with 3 or more, the hero list is exactly [rank2, rank1, rank3] —
the first three entries of the (value-descending) assembled list with
positions 1 and 2 swapped, capped at 3 entries. -/
theorem C5_hero_swap (kud : KudOracle) (awards : List (String × ℚ)) (m : ℕ) :
    (distinctContributors awards < 3 → (generate_leaderboard kud awards m).2 = []) ∧
    (3 ≤ distinctContributors awards →
      ∃ e1 e2 e3 t, assembleFrom kud 0 (sortDesc (aggregate awards)) = e1 :: e2 :: e3 :: t ∧
        (generate_leaderboard kud awards m).2 = [e2, e1, e3]) := by
  have hlen : (sortDesc (aggregate awards)).length = distinctContributors awards := by
    rw [sortDesc_length, aggregate_length_eq]
  constructor
  · intro h
    simp only [generate_leaderboard]
    rw [if_pos (by omega)]
  · intro h
    have h3 : 3 ≤ (assembleFrom kud 0 (sortDesc (aggregate awards))).length := by
      rw [assembleFrom_length, hlen]; omega
    obtain ⟨e1, e2, e3, t, hshape⟩ := exists_three_head _ h3
    refine ⟨e1, e2, e3, t, hshape, ?_⟩
    simp only [generate_leaderboard]
    rw [if_neg (by omega), hshape]
    rfl

/-- C5 witness: with contributors A=30, B=20, C=10 the hero list is
[B, A, C] (and with two contributors it is empty). -/
theorem C5_hero_swap_witness :
    (generate_leaderboard (fun _ => []) [("A", 30), ("B", 20), ("C", 10)] 25).2.map
        LBEntry.handle = ["B", "A", "C"] ∧
    (generate_leaderboard (fun _ => []) [("A", 30), ("B", 20)] 25).2 = [] := by
  constructor
  · obtain ⟨e1, e2, e3, t, hshape, hhero⟩ :=
      (C5_hero_swap (fun _ => []) [("A", 30), ("B", 20), ("C", 10)] 25).2 (by decide)
    have hh : (assembleFrom (fun _ => [])
        0 (sortDesc (aggregate [("A", 30), ("B", 20), ("C", 10)]))).map LBEntry.handle
          = ["A", "B", "C"] := by decide
    rw [hshape] at hh
    simp only [List.map_cons, List.cons.injEq] at hh
    rw [hhero]
    simp [hh.1, hh.2.1, hh.2.2.1]
  · exact (C5_hero_swap (fun _ => []) [("A", 30), ("B", 20)] 25).1 (by decide)

/-- C7: the displayed point value is the integer part alone (a Python
`int`, never `10.0`) when the fractional part of the aggregated value is
exactly zero, and otherwise the value rounded to one decimal place (the
result is an integer number of tenths within 1/20 of the true value). -/
theorem C7_display_value_format (v : ℚ) :
    (pyMod1 v = 0 →
      display_pts v = .int (pyTrunc v) ∧ ((pyTrunc v : ℚ) = v)) ∧
    (pyMod1 v ≠ 0 →
      display_pts v = .dec (pyRound1 v) ∧ |pyRound1 v - v| ≤ 1/20 ∧
        pyRound1 v = (pyRoundHalfEven (v * 10) : ℚ) / 10) := by
  constructor
  · intro h
    have hv : v = (⌊v⌋ : ℚ) := by
      have h' := h
      unfold pyMod1 at h'
      rw [ratFloor_eq] at h'
      linarith
    refine ⟨by unfold display_pts; rw [if_pos h], ?_⟩
    unfold pyTrunc
    simp only [ratFloor_eq]
    split
    · exact hv.symm
    · next hneg =>
      have hmv : (-v : ℚ) = ((-⌊v⌋ : ℤ) : ℚ) := by push_cast; linarith
      have hm : ⌊-v⌋ = -⌊v⌋ := by rw [hmv, Int.floor_intCast]
      rw [hm]
      push_cast
      linarith
  · intro h
    refine ⟨by unfold display_pts; rw [if_neg h], ?_, rfl⟩
    unfold pyRound1
    have hb := pyRoundHalfEven_abs (v * 10)
    rw [abs_le] at hb ⊢
    constructor <;> · obtain ⟨hb1, hb2⟩ := hb; linarith

/-- C7 witness: 10.0 displays as the integer 10 and 10.25 displays as the
one-decimal value 10.2. -/
theorem C7_display_value_format_witness :
    display_pts 10 = .int 10 ∧ display_pts (41/4) = .dec (51/5) := by
  have h4 : ⌊(41/4 : ℚ)⌋ = 10 := by rw [Int.floor_eq_iff]; norm_num
  have h5 : ⌊(41/4 * 10 : ℚ)⌋ = 102 := by rw [Int.floor_eq_iff]; norm_num
  constructor
  · have hm0 : pyMod1 (10 : ℚ) = 0 := by
      unfold pyMod1; rw [ratFloor_eq]; simp
    have ht : pyTrunc (10 : ℚ) = 10 := by
      unfold pyTrunc; simp only [ratFloor_eq]; rw [if_pos (by norm_num)]; simp
    rw [((C7_display_value_format 10).1 hm0).1, ht]
  · have hm1 : pyMod1 (41/4 : ℚ) ≠ 0 := by
      unfold pyMod1; rw [ratFloor_eq, h4]; norm_num
    have hr : pyRound1 (41/4 : ℚ) = 51/5 := by
      unfold pyRound1 pyRoundHalfEven
      simp only [ratFloor_eq]
      rw [if_neg (by rw [h5]; norm_num), if_neg (by rw [h5]; norm_num),
        if_pos (by rw [h5]; norm_num), h5]
      norm_num
    rw [((C7_display_value_format (41/4)).2 hm1).1, hr]

/-- C8: the full list is truncated to `max_entries` entries (its length is
`min max_entries (number of distinct contributors)`), the hero list never
exceeds 3 entries, and the hero list does not depend on `max_entries` at
all — it is computed from the unsliced top 3 of the full ranking. -/
theorem C8_truncation (kud : KudOracle) (awards : List (String × ℚ)) (m m' : ℕ) :
    (generate_leaderboard kud awards m).1.length = min m (distinctContributors awards) ∧
    (generate_leaderboard kud awards m).2.length ≤ 3 ∧
    (generate_leaderboard kud awards m).2 = (generate_leaderboard kud awards m').2 := by
  have hA : (assembleFrom kud 0 (sortDesc (aggregate awards))).length
      = distinctContributors awards := by
    rw [assembleFrom_length, sortDesc_length, aggregate_length_eq]
  by_cases h : (sortDesc (aggregate awards)).length < 3
  · have hgl : ∀ k : ℕ, generate_leaderboard kud awards k =
        ((assembleFrom kud 0 (sortDesc (aggregate awards))).take k, []) := by
      intro k
      simp only [generate_leaderboard]
      rw [if_pos h]
    rw [hgl m, hgl m']
    refine ⟨?_, by simp, rfl⟩
    rw [List.length_take, hA, inf_eq_min]
  · have hgl : ∀ k : ℕ, generate_leaderboard kud awards k =
        ((swapFirstTwo (assembleFrom kud 0 (sortDesc (aggregate awards)))).take k,
          (swapFirstTwo (assembleFrom kud 0 (sortDesc (aggregate awards)))).take 3) := by
      intro k
      simp only [generate_leaderboard]
      rw [if_neg h]
    rw [hgl m, hgl m']
    refine ⟨?_, ?_, rfl⟩
    · rw [List.length_take, swapFirstTwo_length, hA, inf_eq_min]
    · rw [List.length_take]
      exact inf_le_left

/-- C10: every entry of either returned list carries, as its final
component (`counter`), the 1-based rank of its profile in the
value-descending sorted aggregation — even when the hero swap moves the
entry to a different display position. -/
theorem C10_rank_travels (kud : KudOracle) (awards : List (String × ℚ)) (m : ℕ) (e : LBEntry)
    (he : e ∈ (generate_leaderboard kud awards m).1 ∨ e ∈ (generate_leaderboard kud awards m).2) :
    e.counter = trueRank awards e.handle := by
  have hmem : e ∈ assembleFrom kud 0 (sortDesc (aggregate awards)) := by
    rcases he with hx | hx
    · simp only [generate_leaderboard] at hx
      split at hx
      · exact List.mem_of_mem_take hx
      · exact mem_swapFirstTwo.mp (List.mem_of_mem_take hx)
    · simp only [generate_leaderboard] at hx
      split at hx
      · simp at hx
      · exact mem_swapFirstTwo.mp (List.mem_of_mem_take hx)
  obtain ⟨i, hi, hhandle, hcounter⟩ := mem_assembleFrom kud _ 0 e hmem
  have hnodupL : ((sortDesc (aggregate awards)).map Prod.fst).Nodup :=
    ((sortDesc_perm (aggregate awards)).map Prod.fst).nodup_iff.mpr (aggregate_keys_nodup awards)
  have h2 : i < ((sortDesc (aggregate awards)).map Prod.fst).length := by simpa using hi
  have hget : ((sortDesc (aggregate awards)).map Prod.fst).get ⟨i, h2⟩ = e.handle := by
    rw [List.get_eq_getElem, List.getElem_map, hhandle, List.get_eq_getElem]
  have hidx : ((sortDesc (aggregate awards)).map Prod.fst).indexOf e.handle = i := by
    rw [← hget, List.get_eq_getElem]
    exact List.indexOf_getElem hnodupL i h2
  unfold trueRank
  rw [hidx]
  omega

/-- Along a terminating chain with no notification failures, one cascade
invocation appends exactly the `chainAwards` rows and returns normally. -/
theorem record_award_helper_chain (env : CascadeEnv) (q : Quest)
    (hnf : ∀ p l, env.notifyFails p l = false) :
    ∀ (ps : List ℕ) (p : ℕ) (layer : ℕ) (db : DB),
      isRefChain env.referrer (p :: ps) →
      (record_award_helper env q db p layer).1.awards
          = db.awards ++ chainAwards q.value (p :: ps) layer ∧
      (record_award_helper env q db p layer).2 = true := by
  intro ps
  induction ps with
  | nil =>
    intro p layer db hch
    have hr : env.referrer p = none := by simpa [isRefChain] using hch
    by_cases hl : layer > max_ref_depth
    · rw [record_award_helper, dif_pos hl, chainAwards, if_pos hl]
      simp
    · rw [record_award_helper]
      simp only [dif_neg hl, hnf, hr, chainAwards, if_neg hl]
      by_cases hg : layer > 1 ∨ env.debug = true
      · simp [hg, chainAwards]
      · simp [hg, chainAwards]
  | cons r ps ih =>
    intro p layer db hch
    obtain ⟨hpr, hch'⟩ : env.referrer p = some r ∧ isRefChain env.referrer (r :: ps) := by
      simpa [isRefChain] using hch
    by_cases hl : layer > max_ref_depth
    · rw [record_award_helper, dif_pos hl, chainAwards, if_pos hl]
      simp
    · rw [record_award_helper]
      simp only [dif_neg hl, hnf, hpr, chainAwards, if_neg hl]
      by_cases hg : layer > 1 ∨ env.debug = true
      · simp only [hg, if_true, iff_true, Bool.false_eq_true, if_false]
        obtain ⟨ha, hb⟩ := ih r (layer + 1)
          ⟨db.awards ++ [(p, q.value / 2 ^ (layer - 1))],
            db.coupons ++ [⟨q.kudos_reward, "quest", 1, 0, p⟩]⟩ hch'
        constructor
        · rw [ha]
          simp
          rw [chainAwards]
          norm_num
        · exact hb
      · simp only [hg, if_false, iff_false]
        obtain ⟨ha, hb⟩ := ih r (layer + 1)
          ⟨db.awards ++ [(p, q.value / 2 ^ (layer - 1))], db.coupons⟩ hch'
        constructor
        · rw [ha]
          simp
          rw [chainAwards]
          norm_num
        · exact hb

/-- Closed form of the cascade's point total along a chain entered at
layer 1: the partial geometric sum `v * (2 - 2^(1 - min n 4))`. -/
theorem chainAwards_sum (v : ℚ) (p : ℕ) (ps : List ℕ) :
    sumVals (chainAwards v (p :: ps) 1)
      = v * (2 - (2 : ℚ) ^ ((1 : ℤ) - (min (p :: ps).length 4 : ℕ))) := by
  rcases ps with _ | ⟨a, _ | ⟨b, _ | ⟨c, t⟩⟩⟩
  · simp [chainAwards, sumVals, max_ref_depth]
    norm_num
  · simp [chainAwards, sumVals, max_ref_depth]
    norm_num
    ring
  · simp [chainAwards, sumVals, max_ref_depth]
    norm_num
    ring
  · have ht : chainAwards v t 5 = [] := chainAwards_high v t 5 (by norm_num [max_ref_depth])
    have hmin : min (p :: a :: b :: c :: t).length 4 = 4 := by simp
    rw [hmin]
    simp [chainAwards, sumVals, max_ref_depth, ht]
    norm_num
    ring

/-- The cascade appends at most `max_ref_depth + 1 - layer` award rows. -/
theorem record_award_helper_count (env : CascadeEnv) (q : Quest) :
    ∀ (N : ℕ) (layer p : ℕ) (db : DB), max_ref_depth + 1 - layer ≤ N →
      (record_award_helper env q db p layer).1.awards.length ≤ db.awards.length + N := by
  intro N
  induction N with
  | zero =>
    intro layer p db hN
    have hl : layer > max_ref_depth := by
      simp [max_ref_depth] at hN ⊢
      omega
    rw [record_award_helper, dif_pos hl]
    simp
  | succ N ih =>
    intro layer p db hN
    by_cases hl : layer > max_ref_depth
    · rw [record_award_helper, dif_pos hl]
      simp
    · rw [record_award_helper]
      simp only [dif_neg hl]
      have hstep : max_ref_depth + 1 - (layer + 1) ≤ N := by omega
      by_cases hg : layer > 1 ∨ env.debug = true
      · simp only [hg, iff_true, if_true]
        by_cases hf : env.notifyFails p layer = true
        · simp only [hf, if_true]
          simp
        · simp only [hf, if_false, Bool.not_eq_true]
          cases hre : env.referrer p with
          | some r =>
            simp only [hre]
            refine le_trans (ih (layer + 1) r _ hstep) ?_
            simp
            omega
          | none =>
            simp only [hre]
            simp
      · simp only [hg, iff_false, if_false]
        cases hre : env.referrer p with
        | some r =>
          simp only [hre]
          refine le_trans (ih (layer + 1) r _ hstep) ?_
          simp
          omega
        | none =>
          simp only [hre]
          simp

/-- Whenever the gate passes at a two-chain's second layer, one cascade run
appends exactly one coupon for the referrer — with no lookup of existing
coupons, whatever `db.coupons` already holds. -/
theorem record_award_two_chain_coupons (env : CascadeEnv) (q : Quest) (w r : ℕ)
    (hw : env.referrer w = some r) (hr : env.referrer r = none)
    (hdbg : env.debug = false) (hnf : env.notifyFails r 2 = false) (db : DB) :
    (record_award_helper env q db w 1).1.coupons
      = db.coupons ++ [⟨q.kudos_reward, "quest", 1, 0, r⟩] := by
  rw [record_award_helper]
  rw [dif_neg (by norm_num [max_ref_depth])]
  simp only [hw, hdbg]
  rw [if_neg (by simp)]
  rw [record_award_helper]
  rw [dif_neg (by norm_num [max_ref_depth])]
  rw [if_pos (by norm_num)]
  simp only [hnf, hr]
  simp

/-- C10 witness: the first entry of the full list on a concrete input has
counter equal to the true rank of its handle. -/
theorem C10_rank_travels_witness :
    ((generate_leaderboard (fun _ => []) [("A", 30), ("B", 20), ("C", 10)] 25).1.head!).counter
      = trueRank [("A", 30), ("B", 20), ("C", 10)]
        ((generate_leaderboard (fun _ => []) [("A", 30), ("B", 20), ("C", 10)] 25).1.head!).handle := by
  apply C10_rank_travels
  left
  apply List.head!_mem_self
  decide

/-- C2 counterexample: with an existing coupon for the (quest token,
"quest", recipient) pair already in the database, running the cascade twice
for the same chain leaves three coupons for that pair, not one —
`record_award_helper` never looks an existing coupon up before creating. -/
theorem C2_counterexample :
    ((record_award_helper lin2Env ⟨10, 7⟩
        (record_award_helper lin2Env ⟨10, 7⟩ ⟨[], [⟨7, "quest", 1, 0, 1⟩]⟩ 0 1).1
        0 1).1.coupons).count ⟨7, "quest", 1, 0, 1⟩ = 3 ∧
    ((record_award_helper lin2Env ⟨10, 7⟩
        (record_award_helper lin2Env ⟨10, 7⟩ ⟨[], [⟨7, "quest", 1, 0, 1⟩]⟩ 0 1).1
        0 1).1.coupons).count ⟨7, "quest", 1, 0, 1⟩ ≠ 1 := by
  have h1 := record_award_two_chain_coupons lin2Env ⟨10, 7⟩ 0 1 rfl rfl rfl rfl
    ⟨[], [⟨7, "quest", 1, 0, 1⟩]⟩
  have h2 := record_award_two_chain_coupons lin2Env ⟨10, 7⟩ 0 1 rfl rfl rfl rfl
    (record_award_helper lin2Env ⟨10, 7⟩ ⟨[], [⟨7, "quest", 1, 0, 1⟩]⟩ 0 1).1
  rw [h2, h1]
  constructor
  · decide
  · decide

/-- C2 amended: `record_award_helper` performs no coupon lookup — every run
whose gate passes at the referrer layer appends a fresh coupon for the
(quest token, "quest", recipient) pair regardless of existing coupons, so
two runs append two coupons. -/
theorem C2_cascade_always_creates (env : CascadeEnv) (q : Quest) (db : DB) (w r : ℕ)
    (hw : env.referrer w = some r) (hr : env.referrer r = none)
    (hdbg : env.debug = false) (hnf : env.notifyFails r 2 = false) :
    (record_award_helper env q db w 1).1.coupons
        = db.coupons ++ [⟨q.kudos_reward, "quest", 1, 0, r⟩] ∧
    (record_award_helper env q (record_award_helper env q db w 1).1 w 1).1.coupons
        = db.coupons ++ [⟨q.kudos_reward, "quest", 1, 0, r⟩, ⟨q.kudos_reward, "quest", 1, 0, r⟩] := by
  have h1 := record_award_two_chain_coupons env q w r hw hr hdbg hnf db
  have h2 := record_award_two_chain_coupons env q w r hw hr hdbg hnf
    (record_award_helper env q db w 1).1
  refine ⟨h1, ?_⟩
  rw [h2, h1, List.append_assoc]
  rfl

/-- C2 witness: a concrete database already holding the coupon; two cascade
runs leave three coupons for the pair. -/
theorem C2_cascade_always_creates_witness :
    ((record_award_helper lin2Env ⟨10, 7⟩
        (record_award_helper lin2Env ⟨10, 7⟩ ⟨[], [⟨7, "quest", 1, 0, 1⟩]⟩ 0 1).1
        0 1).1.coupons)
      = [⟨7, "quest", 1, 0, 1⟩, ⟨7, "quest", 1, 0, 1⟩, ⟨7, "quest", 1, 0, 1⟩] := by
  have h := C2_cascade_always_creates lin2Env ⟨10, 7⟩ ⟨[], [⟨7, "quest", 1, 0, 1⟩]⟩ 0 1
    rfl rfl rfl rfl
  rw [h.2]
  rfl

/-- C3 counterexample: with the chain 10 → 11 → 12 and notification
delivery raising for profile 11 at layer 2 (where the coupon gate passed),
the cascade aborts: profile 12 never receives its point award, and the
exception propagates. -/
theorem C3_counterexample :
    (record_award_helper failEnv ⟨10, 7⟩ ⟨[], []⟩ 10 1).1.awards.map Prod.fst = [10, 11] ∧
    ¬ (12 ∈ (record_award_helper failEnv ⟨10, 7⟩ ⟨[], []⟩ 10 1).1.awards.map Prod.fst) ∧
    (record_award_helper failEnv ⟨10, 7⟩ ⟨[], []⟩ 10 1).2 = false := by
  have h : record_award_helper failEnv ⟨10, 7⟩ ⟨[], []⟩ 10 1
      = ({ awards := [(10, 10 / 2 ^ 0), (11, 10 / 2 ^ 1)],
           coupons := [⟨7, "quest", 1, 0, 11⟩] }, false) := by
    simp [record_award_helper, failEnv, max_ref_depth]
  rw [h]
  refine ⟨rfl, by decide, rfl⟩

/-- C3 amended: an exception from `send_notification_to_user` does abort
the cascade — when the gate passes at a layer within the depth cap and
notification delivery raises there, the cascade stops with exactly that
layer's award and coupon written; no later referral layer receives a
point award. -/
theorem C3_notify_abort (env : CascadeEnv) (q : Quest) (db : DB) (p : ℕ) (layer : ℕ)
    (hlay : ¬ layer > max_ref_depth) (hgate : layer > 1 ∨ env.debug = true)
    (hfail : env.notifyFails p layer = true) :
    record_award_helper env q db p layer
      = ({ awards := db.awards ++ [(p, q.value / 2 ^ (layer - 1))],
           coupons := db.coupons ++ [⟨q.kudos_reward, "quest", 1, 0, p⟩] }, false) := by
  conv_lhs => rw [record_award_helper]
  rw [dif_neg hlay]
  rw [if_pos hgate]
  rw [if_pos hfail]

/-- C3 witness: concrete abort at layer 2 of the failing chain. -/
theorem C3_notify_abort_witness :
    record_award_helper failEnv ⟨10, 7⟩ ⟨[], []⟩ 11 2
      = ({ awards := [(11, 10 / 2 ^ 1)], coupons := [⟨7, "quest", 1, 0, 11⟩] }, false) := by
  have h := C3_notify_abort failEnv ⟨10, 7⟩ ⟨[], []⟩ 11 2
    (by norm_num [max_ref_depth]) (by norm_num) rfl
  simpa using h

/-- C4: along an acyclic referrer chain (winner plus referrers, length n)
with no notification failures, one cascade invocation appends exactly the
layer-award rows `value / 2^(layer-1)` and their values sum to
`quest.value * (2 - 2^(1 - min n 4))`, strictly below `2 * quest.value`. -/
theorem C4_cascade_sum (env : CascadeEnv) (q : Quest) (db : DB) (winner : ℕ) (ps : List ℕ)
    (hch : isRefChain env.referrer (winner :: ps))
    (hnf : ∀ p l, env.notifyFails p l = false)
    (hv : 0 < q.value) :
    (record_award_helper env q db winner 1).1.awards.drop db.awards.length
        = chainAwards q.value (winner :: ps) 1 ∧
    sumVals ((record_award_helper env q db winner 1).1.awards.drop db.awards.length)
        = q.value * (2 - (2 : ℚ) ^ ((1 : ℤ) - (min (winner :: ps).length 4 : ℕ))) ∧
    sumVals ((record_award_helper env q db winner 1).1.awards.drop db.awards.length)
        < 2 * q.value := by
  obtain ⟨ha, _⟩ := record_award_helper_chain env q hnf ps winner 1 db hch
  have hdrop : (record_award_helper env q db winner 1).1.awards.drop db.awards.length
      = chainAwards q.value (winner :: ps) 1 := by
    rw [ha, List.drop_left]
  have hpow : (0 : ℚ) < (2 : ℚ) ^ ((1 : ℤ) - (min (winner :: ps).length 4 : ℕ)) :=
    zpow_pos (by norm_num) _
  refine ⟨hdrop, ?_, ?_⟩
  · rw [hdrop, chainAwards_sum]
  · rw [hdrop, chainAwards_sum]
    nlinarith [mul_pos hv hpow]

/-- C4 witness: chain 0 → 1 with quest value 10 yields awards summing to
15 = 10 + 5, below 20. -/
theorem C4_cascade_sum_witness :
    sumVals ((record_award_helper lin2Env ⟨10, 7⟩ ⟨[], []⟩ 0 1).1.awards.drop
        (DB.mk [] []).awards.length) = 15 ∧ (15 : ℚ) < 2 * 10 := by
  obtain ⟨hchain, hsum, hlt⟩ := C4_cascade_sum lin2Env ⟨10, 7⟩ ⟨[], []⟩ 0 [1]
    ⟨rfl, rfl⟩ (fun _ _ => rfl) (by norm_num)
  constructor
  · rw [hsum]
    norm_num
  · norm_num

/-- C6: the layer counter's hard stop above `max_ref_depth = 4` bounds any
cascade — whatever the referrer relation, including cyclic ones — to at
most 4 point-award rows per invocation; on the 2-cycle 0 ↔ 1 the recursion
terminates after exactly the 4 layer awards [0, 1, 0, 1]. -/
theorem C6_depth_cap (env : CascadeEnv) (q : Quest) (db : DB) (p : ℕ) :
    (record_award_helper env q db p 1).1.awards.length ≤ db.awards.length + 4 ∧
    (record_award_helper cyc2Env q ⟨[], []⟩ 0 1).1.awards.map Prod.fst = [0, 1, 0, 1] := by
  constructor
  · simpa [max_ref_depth] using
      record_award_helper_count env q 4 1 p db (by norm_num [max_ref_depth])
  · simp [record_award_helper, cyc2Env, max_ref_depth]

/-- C9: a repeat win (quest already beaten before this call) still marks
the attempt successful and returns a prize URL, but creates no new
point-award rows; the cascade runs exactly on the not-yet-beaten path,
after the winner-coupon step. -/
theorem C9_repeat_win_no_cascade (env : CascadeEnv) (q : Quest) (db : DB) (w : ℕ) :
    ((process_win env q db w true).db.awards = db.awards ∧
      (process_win env q db w true).attempt_success = true ∧
      (process_win env q db w true).prize_url_returned = true) ∧
    (process_win env q db w false).db
        = (record_award_helper env q
            (if couponExistsFor db q.kudos_reward w then db
              else { db with coupons := db.coupons ++ [⟨q.kudos_reward, "quest", 1, 0, w⟩] })
            w 1).1 := by
  refine ⟨⟨?_, rfl, rfl⟩, rfl⟩
  simp only [process_win, Bool.not_true, Bool.false_eq_true, if_false]
  split
  · rfl
  · rfl
